import Mathlib

/-!
# Compact-block reconstruction benchmark (`src/bench/blockencodings.cpp`)

A shallow embedding of the benchmark driver: the transaction generator
`MakeTransactions`, the announcement builder `BenchCBHAST`, the set-up phase of
`BlockEncodingBench` and the five registered benchmark configurations.

Conventions.
* `size_t` counters are `Nat`; `CAmount` (a signed 64-bit amount) is `Int`.  The
  only conversion between the two is `tx.vout[0].nValue = i` with `i < count`,
  where `count` is the length of an allocated vector, so it preserves the value.
* A `CTransactionRef` is modelled by the transaction value it points to.
* The outcome of a `FastRandomContext` (seeded from the operating system in the
  source) is an explicit input: the sequence of words the generator will return.
* Hashing primitives that live in other translation units (`GetWitnessHash`,
  the SipHash behind `GetShortID`, the key derivation) are taken as parameters.
-/

namespace BlockEncodings

/-! ## Scripts and transactions -/

/-- One element appended to a `CScript` by `operator<<`: an opcode or a data push. -/
inductive ScriptElem where
  | op (code : Nat)
  | push (data : List Nat)
  deriving DecidableEq, Repr

/-- A script, as the sequence of elements streamed into it. -/
abbrev CScript := List ScriptElem

def OP_1 : ScriptElem := ScriptElem.op 0x51
def OP_EQUAL : ScriptElem := ScriptElem.op 0x87
def OP_RETURN : ScriptElem := ScriptElem.op 0x6a

/-- Transaction input: the fields the benchmark writes (`scriptSig` and the witness stack). -/
structure CTxIn where
  scriptSig : CScript := []
  scriptWitness : List (List Nat) := []
  deriving DecidableEq, Repr

/-- Transaction output; a default-constructed output is null (`nValue = -1`). -/
structure CTxOut where
  nValue : Int := -1
  scriptPubKey : CScript := []
  deriving DecidableEq, Repr

instance : Inhabited CTxOut := ⟨{}⟩

/-- A transaction: `vin` and `vout` (a `CMutableTransaction` frozen by `MakeTransactionRef`). -/
structure CTransaction where
  vin : List CTxIn := []
  vout : List CTxOut := []
  deriving DecidableEq, Repr

/-- The read `tx->vout[0].nValue`. -/
def firstOutValue (tx : CTransaction) : Int := (tx.vout.getD 0 default).nValue

/-! ## The random generator -/

/-- A `FastRandomContext`: the words it is going to produce and how many were consumed. -/
structure FastRandomContext where
  words : Nat → Nat
  pos : Nat := 0

namespace FastRandomContext

/-- Draw `rng.rand64()`: the next word, reduced to 64 bits. -/
def rand64 (rng : FastRandomContext) : Nat × FastRandomContext :=
  (rng.words rng.pos % 2 ^ 64, { rng with pos := rng.pos + 1 })

/-- Draw `rng.randbytes(n)`: `n` bytes, one per consumed word. -/
def randbytes (rng : FastRandomContext) (n : Nat) : List Nat × FastRandomContext :=
  ((List.range n).map (fun j => rng.words (rng.pos + j) % 256), { rng with pos := rng.pos + n })

end FastRandomContext

/-- Inner loop of `std::shuffle`: every element is placed at a position drawn from the
generator among the positions available so far, so the result is a rearrangement of the
input that is fixed by the generator's outcome. -/
def shuffleAux {α : Type} : List α → List α → FastRandomContext → List α × FastRandomContext
  | [], acc, rng => (acc, rng)
  | x :: xs, acc, rng =>
    shuffleAux xs (acc.insertIdx ((rng.rand64).1 % (acc.length + 1)) x) (rng.rand64).2

/-- The call `std::shuffle(v.begin(), v.end(), rng)`. -/
def shuffle {α : Type} (v : List α) (rng : FastRandomContext) : List α × FastRandomContext :=
  shuffleAux v [] rng

/-! ## `MakeTransactions` -/

/-- The array `sigspam`: 200 bytes, each 42. -/
def sigspam : List Nat := List.replicate 200 42

/-- Body of the loop in `MakeTransactions` for index `i`, with `bytes = rng.randbytes(80)`. -/
def makeTx (i : Nat) (bytes : List Nat) : CTransaction :=
  { vin := [{ scriptSig := [ScriptElem.push sigspam], scriptWitness := [[1]] }]
    vout := [{ nValue := (i : Int), scriptPubKey := [OP_1, OP_EQUAL] },
             { nValue := 0, scriptPubKey := [OP_RETURN, ScriptElem.push bytes] }] }

/-- The loop `for (size_t i = 0; i < count; ++i)` of `MakeTransactions`; the first argument
is the number of iterations left, `count - i`. -/
def makeLoop : Nat → Nat → FastRandomContext → List CTransaction →
    List CTransaction × FastRandomContext
  | 0, _, rng, refs => (refs, rng)
  | n + 1, i, rng, refs =>
    makeLoop n (i + 1) (rng.randbytes 80).2 (refs ++ [makeTx i (rng.randbytes 80).1])

/-- Model of `MakeTransactions(count)`; `rng` is the outcome of the function's own generator. -/
def MakeTransactions (rng : FastRandomContext) (count : Nat) : List CTransaction :=
  (shuffle (makeLoop count 0 rng []).1 (makeLoop count 0 rng []).2).1

/-- The 80 bytes drawn for the transaction of index `i` by a generator started at `rng`. -/
def payload (rng : FastRandomContext) (i : Nat) : List Nat :=
  (List.range 80).map (fun j => rng.words (rng.pos + 80 * i + j) % 256)

/-- The transactions `MakeTransactions` creates, before its final shuffle. -/
def generated (rng : FastRandomContext) (count : Nat) : List CTransaction :=
  (List.range count).map (fun i => makeTx i (payload rng i))

/-! ## Block, hashing primitives and the announcement -/

/-- Block header fields set by `DummyBlock`. -/
structure CBlockHeader where
  nVersion : Int := 0
  hashPrevBlock : Nat := 0
  hashMerkleRoot : Nat := 0
  nTime : Nat := 0
  nBits : Nat := 0
  nNonce : Nat := 0
  deriving DecidableEq, Repr

/-- A block: its header, its transactions and the `fChecked` flag. -/
structure CBlock where
  header : CBlockHeader := {}
  vtx : List CTransaction := []
  fChecked : Bool := false
  deriving DecidableEq, Repr

/-- The function `BenchCBHAST::DummyBlock`: a header and one dummy coinbase with a
default input and a default output. -/
def DummyBlock : CBlock :=
  { header := { nVersion := 5, hashPrevBlock := 0, hashMerkleRoot := 0, nTime := 1231006505,
                nBits := 0x1d00ffff, nNonce := 2083236893 }
    fChecked := false
    vtx := [{ vin := [{}], vout := [{}] }] }

/-- Hashing primitives defined outside `bench/blockencodings.cpp`, taken as parameters:
the witness-inclusive transaction hash, the derivation of the two SipHash keys from header
and nonce, and the keyed hash itself. -/
structure Hashes where
  GetWitnessHash : CTransaction → Nat
  shortTxIDKeys : CBlockHeader → Nat → Nat × Nat
  SipHashUint256 : Nat → Nat → Nat → Nat

/-- Modelled from the spec: `GetShortID`, whose body is in `blockencodings.cpp` (absent).
A short identifier is the low 48 bits of the keyed hash of the transaction identity. -/
def GetShortID (H : Hashes) (key : Nat × Nat) (wtxid : Nat) : Nat :=
  H.SipHashUint256 key.1 key.2 wtxid % 2 ^ 48

/-- A transaction sent in full at a slot index. -/
structure PrefilledTransaction where
  index : Nat
  tx : CTransaction
  deriving DecidableEq, Repr

/-- The class `CBlockHeaderAndShortTxIDs`: header, nonce, the two short-id keys, the short
identifiers and the prefilled transactions. -/
structure CBlockHeaderAndShortTxIDs where
  header : CBlockHeader
  nonce : Nat
  shorttxidk0 : Nat
  shorttxidk1 : Nat
  shorttxids : List Nat
  prefilledtxn : List PrefilledTransaction
  deriving DecidableEq, Repr

/-- The key pair a compact block hashes with. -/
def CBlockHeaderAndShortTxIDs.key (cb : CBlockHeaderAndShortTxIDs) : Nat × Nat :=
  (cb.shorttxidk0, cb.shorttxidk1)

/-- Modelled from the spec: the base-class constructor
`CBlockHeaderAndShortTxIDs(const CBlock&, uint64_t nonce)` of `blockencodings.cpp` (absent).
The key is derived from header and nonce, slot 0 (the coinbase) is prefilled and every other
slot is announced by its short identifier, in block order. -/
def CBlockHeaderAndShortTxIDs.ofBlock (H : Hashes) (block : CBlock) (nonce : Nat) :
    CBlockHeaderAndShortTxIDs :=
  { header := block.header
    nonce := nonce
    shorttxidk0 := (H.shortTxIDKeys block.header nonce).1
    shorttxidk1 := (H.shortTxIDKeys block.header nonce).2
    shorttxids := (block.vtx.drop 1).map
      (fun tx => GetShortID H (H.shortTxIDKeys block.header nonce) (H.GetWitnessHash tx))
    prefilledtxn := (block.vtx.take 1).map (fun tx => { index := 0, tx := tx }) }

/-- The loop of the `BenchCBHAST` constructor body: one `push_back` per transaction. -/
def pushShortIDs (H : Hashes) (key : Nat × Nat) (txs : List CTransaction) (ids : List Nat) :
    List Nat :=
  txs.foldl (fun acc tx => acc ++ [GetShortID H key (H.GetWitnessHash tx)]) ids

/-- The announcement `BenchCBHAST` builds once its nonce is known. -/
def announce (H : Hashes) (nonce : Nat) (txs : List CTransaction) : CBlockHeaderAndShortTxIDs :=
  { CBlockHeaderAndShortTxIDs.ofBlock H DummyBlock nonce with
    shorttxids := pushShortIDs H (CBlockHeaderAndShortTxIDs.ofBlock H DummyBlock nonce).key txs
      (CBlockHeaderAndShortTxIDs.ofBlock H DummyBlock nonce).shorttxids }

/-- The constructor `BenchCBHAST(rng, txs)`: the nonce is `rng.rand64()`. -/
def BenchCBHAST (H : Hashes) (rng : FastRandomContext) (txs : List CTransaction) :
    CBlockHeaderAndShortTxIDs × FastRandomContext :=
  (announce H (rng.rand64).1 txs, (rng.rand64).2)

/-! ## The transaction pool -/

/-- The arguments `AddTx` gives to the `CTxMemPoolEntry` constructor. -/
structure CTxMemPoolEntry where
  tx : CTransaction
  fee : Int
  time : Nat
  entry_height : Nat
  entry_sequence : Nat
  spends_coinbase : Bool
  sigops_cost : Nat
  deriving DecidableEq, Repr

/-- Modelled from the spec: `CTxMemPool` (absent), seen as the collection of
(transaction, fee) entries it was given, which reconstruction only reads. -/
structure CTxMemPool where
  entries : List CTxMemPoolEntry := []
  deriving DecidableEq, Repr

/-- The function `AddTx`: one entry with the given fee, time 0, height 1, sequence 0,
not spending a coinbase, sigop cost 4. -/
def AddTx (tx : CTransaction) (fee : Int) (pool : CTxMemPool) : CTxMemPool :=
  { entries := pool.entries ++
      [{ tx := tx, fee := fee, time := 0, entry_height := 1, entry_sequence := 0,
         spends_coinbase := false, sigops_cost := 4 }] }

/-- The transactions held by the pool. -/
def CTxMemPool.txs (pool : CTxMemPool) : List CTransaction := pool.entries.map (fun e => e.tx)

/-! ## Reconstruction (`PartiallyDownloadedBlock::InitData`) -/

/-- The arguments of `BlockEncodingBench`; the last two default to 0. -/
structure BenchConfig where
  n_pool : Nat
  n_extra : Nat
  n_random_in_block : Nat
  n_pool_in_block : Nat := 0
  n_extra_in_block : Nat := 0
  deriving DecidableEq, Repr

/-- Outcomes of the four generators of one benchmark: the three created by the calls of
`MakeTransactions` and the one of `BlockEncodingBench` itself. -/
structure BenchRngs where
  pool : FastRandomContext
  extra : FastRandomContext
  random : FastRandomContext
  bench : FastRandomContext

/-- How a run can stop early. -/
inductive BenchError where
  | assertion
  | outOfRange
  deriving DecidableEq, Repr

/-- A loop `for (size_t i = 0; i < n; i++) dst.push_back(src[i]);`.  The first argument
counts the iterations left; reading past the end of `src` is an error. -/
def pushRefs (src : List CTransaction) : Nat → Nat → List CTransaction →
    Except BenchError (List CTransaction)
  | 0, _, dst => Except.ok dst
  | n + 1, i, dst =>
    match src[i]? with
    | none => Except.error BenchError.outOfRange
    | some tx => pushRefs src n (i + 1) (dst ++ [tx])

/-- The three loops filling `refs_for_block`. -/
def assembleBlockRefs (cfg : BenchConfig) (mempool_refs extra_refs random_refs : List CTransaction) :
    Except BenchError (List CTransaction) :=
  match pushRefs mempool_refs cfg.n_pool_in_block 0 [] with
  | Except.error e => Except.error e
  | Except.ok r1 =>
    match pushRefs extra_refs cfg.n_extra_in_block 0 r1 with
    | Except.error e => Except.error e
    | Except.ok r2 => pushRefs random_refs cfg.n_random_in_block 0 r2

/-- The loop `for (auto const &tx : mempool_refs) AddTx(tx, tx->vout[0].nValue, pool);`. -/
def fillPool (refs : List CTransaction) (pool : CTxMemPool) : CTxMemPool :=
  refs.foldl (fun p tx => AddTx tx (firstOutValue tx) p) pool

/-- The loop `for (auto const &tx : extra_refs) extratxn.emplace_back(tx->GetWitnessHash(), tx);`. -/
def fillExtra (H : Hashes) (refs : List CTransaction) (extratxn : List (Nat × CTransaction)) :
    List (Nat × CTransaction) :=
  refs.foldl (fun v tx => v ++ [(H.GetWitnessHash tx, tx)]) extratxn

/-- What the benchmark loop captures: the pool, the extra list, the block's transactions
and the announcement. -/
structure BenchState where
  pool : CTxMemPool
  extratxn : List (Nat × CTransaction)
  refs_for_block : List CTransaction
  cmpctblock : CBlockHeaderAndShortTxIDs
  deriving DecidableEq, Repr

/-- Lines 117 to 134 of `BlockEncodingBench`: shuffle `mempool_refs` and add it to the pool,
shuffle `extra_refs` and copy it to `extratxn`, then build the announcement. -/
def finishSetup (H : Hashes) (rng : FastRandomContext)
    (mempool_refs extra_refs refs_for_block : List CTransaction) : BenchState :=
  { pool := fillPool (shuffle mempool_refs rng).1 {}
    extratxn := fillExtra H (shuffle extra_refs (shuffle mempool_refs rng).2).1 []
    refs_for_block := refs_for_block
    cmpctblock := (BenchCBHAST H (shuffle extra_refs (shuffle mempool_refs rng).2).2
      refs_for_block).1 }

/-- The set-up phase of `BlockEncodingBench`, up to the benchmark loop. -/
def setup (H : Hashes) (R : BenchRngs) (cfg : BenchConfig) : Except BenchError BenchState :=
  if cfg.n_pool ≥ cfg.n_pool_in_block ∧ cfg.n_extra ≥ cfg.n_extra_in_block then
    match assembleBlockRefs cfg (MakeTransactions R.pool cfg.n_pool)
        (MakeTransactions R.extra cfg.n_extra)
        (MakeTransactions R.random cfg.n_random_in_block) with
    | Except.error e => Except.error e
    | Except.ok refs =>
      Except.ok (finishSetup H R.bench (MakeTransactions R.pool cfg.n_pool)
        (MakeTransactions R.extra cfg.n_extra) refs)
  else Except.error BenchError.assertion

/-- The constant checked by the `static_assert` of `BlockEncodingStdExtra`. -/
def DEFAULT_BLOCK_RECONSTRUCTION_EXTRA_TXN : Nat := 100

def BlockEncodingOptimisticReconstruction : BenchConfig :=
  { n_pool := 50000, n_extra := 100, n_random_in_block := 0, n_pool_in_block := 7000,
    n_extra_in_block := 10 }

def BlockEncodingOptimisticReconstructionNoExtra : BenchConfig :=
  { n_pool := 50000, n_extra := 100, n_random_in_block := 0, n_pool_in_block := 7000,
    n_extra_in_block := 0 }

def BlockEncodingNoExtra : BenchConfig :=
  { n_pool := 50000, n_extra := 0, n_random_in_block := 3000 }

def BlockEncodingStdExtra : BenchConfig :=
  { n_pool := 50000, n_extra := 100, n_random_in_block := 3000 }

def BlockEncodingLargeExtra : BenchConfig :=
  { n_pool := 50000, n_extra := 5000, n_random_in_block := 3000 }

/-- The benchmarks registered with `BENCHMARK`. -/
def registeredBenchmarks : List BenchConfig :=
  [BlockEncodingOptimisticReconstruction, BlockEncodingOptimisticReconstructionNoExtra,
   BlockEncodingNoExtra, BlockEncodingStdExtra, BlockEncodingLargeExtra]

/-! ## Concrete instances -/

/-- The first byte of the data pushed by the second output's script (0 if there is none). -/
def firstPayloadByte (tx : CTransaction) : Nat :=
  match tx.vout with
  | [_, b] =>
    (match b.scriptPubKey with
     | [_, ScriptElem.push (x :: _)] => x
     | _ => 0)
  | _ => 0

/-- A small instance of the hashing primitives: the identity of a transaction is read off
its first output value and its first payload byte, and the keyed hash is the identity. -/
def sampleHashes : Hashes :=
  { GetWitnessHash := fun tx => (firstOutValue tx).toNat * 256 + firstPayloadByte tx
    shortTxIDKeys := fun _ nonce => (nonce, 0)
    SipHashUint256 := fun _ _ w => w }

/-- A generator all of whose words are `c`. -/
def constRng (c : Nat) : FastRandomContext := { words := fun _ => c }

/-- Generator outcomes in which the three transaction lists carry different payload bytes. -/
def sampleRngs : BenchRngs :=
  { pool := constRng 0, extra := constRng 1, random := constRng 2, bench := constRng 3 }

/-- Generator outcomes in which every generator produces the same words. -/
def equalRngs : BenchRngs :=
  { pool := constRng 0, extra := constRng 0, random := constRng 0, bench := constRng 0 }

/-- A small configuration with pool, extra and random transactions in the block. -/
def smallConfig : BenchConfig :=
  { n_pool := 3, n_extra := 2, n_random_in_block := 1, n_pool_in_block := 2,
    n_extra_in_block := 1 }

/-- A small configuration whose block has no random transaction. -/
def smallKnownConfig : BenchConfig :=
  { n_pool := 3, n_extra := 2, n_random_in_block := 0, n_pool_in_block := 2,
    n_extra_in_block := 1 }

/-! ## Lemmas on the generator -/

theorem shuffleAux_perm {α : Type} (xs acc : List α) (rng : FastRandomContext) :
    (shuffleAux xs acc rng).1.Perm (xs ++ acc) := by
  induction xs generalizing acc rng with
  | nil => simp [shuffleAux]
  | cons x xs ih =>
    simp only [shuffleAux]
    refine (ih _ _).trans ?_
    have hle : (rng.rand64).1 % (acc.length + 1) ≤ acc.length :=
      Nat.lt_succ_iff.mp (Nat.mod_lt _ (Nat.succ_pos _))
    have h1 : (acc.insertIdx ((rng.rand64).1 % (acc.length + 1)) x).Perm (x :: acc) :=
      List.perm_insertIdx x acc hle
    refine (List.Perm.append_left xs h1).trans ?_
    exact List.perm_middle

theorem shuffle_perm {α : Type} (v : List α) (rng : FastRandomContext) :
    (shuffle v rng).1.Perm v := by
  have h := shuffleAux_perm v [] rng
  simp only [List.append_nil] at h
  exact h

theorem makeLoop_fst (n i : Nat) (rng : FastRandomContext) (refs : List CTransaction) :
    (makeLoop n i rng refs).1
      = refs ++ (List.range n).map (fun j => makeTx (i + j) (payload rng j)) := by
  induction n generalizing i rng refs with
  | zero => simp [makeLoop]
  | succ n ih =>
    rw [makeLoop, ih, List.range_succ_eq_map]
    simp only [List.map_cons, List.map_map, List.append_assoc, List.singleton_append]
    have h0 : (rng.randbytes 80).1 = payload rng 0 := by
      simp [payload, FastRandomContext.randbytes]
    have hs : ∀ j, payload (rng.randbytes 80).2 j = payload rng (j + 1) := by
      intro j
      simp only [payload, FastRandomContext.randbytes]
      apply List.map_congr_left
      intro k _
      congr 2
      ring
    rw [h0]
    congr 2
    apply List.map_congr_left
    intro j _
    simp only [Function.comp, hs]
    congr 1
    omega

theorem MakeTransactions_perm (rng : FastRandomContext) (count : Nat) :
    (MakeTransactions rng count).Perm (generated rng count) := by
  unfold MakeTransactions generated
  refine (shuffle_perm _ _).trans ?_
  rw [makeLoop_fst]
  simp

theorem generated_length (rng : FastRandomContext) (count : Nat) :
    (generated rng count).length = count := by
  simp [generated]

theorem MakeTransactions_length (rng : FastRandomContext) (count : Nat) :
    (MakeTransactions rng count).length = count :=
  (MakeTransactions_perm rng count).length_eq.trans (generated_length rng count)

theorem firstOutValue_makeTx (i : Nat) (bytes : List Nat) :
    firstOutValue (makeTx i bytes) = (i : Int) := rfl

theorem makeTx_injective {i j : Nat} {b c : List Nat} (h : makeTx i b = makeTx j c) :
    i = j ∧ b = c := by
  have h1 : firstOutValue (makeTx i b) = firstOutValue (makeTx j c) := by rw [h]
  rw [firstOutValue_makeTx, firstOutValue_makeTx] at h1
  refine ⟨Int.ofNat_inj.mp h1, ?_⟩
  simp only [makeTx, CTransaction.mk.injEq, List.cons.injEq, CTxOut.mk.injEq,
    ScriptElem.push.injEq] at h
  exact h.2.2.1.2.2.1

theorem mem_generated {rng : FastRandomContext} {count : Nat} {tx : CTransaction} :
    tx ∈ generated rng count ↔ ∃ i, i < count ∧ tx = makeTx i (payload rng i) := by
  simp only [generated, List.mem_map, List.mem_range]
  constructor
  · rintro ⟨i, hi, rfl⟩
    exact ⟨i, hi, rfl⟩
  · rintro ⟨i, hi, rfl⟩
    exact ⟨i, hi, rfl⟩

theorem mem_MakeTransactions {rng : FastRandomContext} {count : Nat} {tx : CTransaction} :
    tx ∈ MakeTransactions rng count ↔ ∃ i, i < count ∧ tx = makeTx i (payload rng i) :=
  (MakeTransactions_perm rng count).mem_iff.trans mem_generated

theorem generated_values (rng : FastRandomContext) (count : Nat) :
    (generated rng count).map firstOutValue = (List.range count).map (fun i : Nat => (i : Int)) := by
  simp only [generated, List.map_map]
  apply List.map_congr_left
  intro i _
  rfl

theorem range_cast_nodup (count : Nat) :
    ((List.range count).map (fun i : Nat => (i : Int))).Nodup :=
  (List.nodup_range count).map (fun _ _ h => Int.ofNat_inj.mp h)

theorem MakeTransactions_values_perm (rng : FastRandomContext) (count : Nat) :
    ((MakeTransactions rng count).map firstOutValue).Perm
      ((List.range count).map (fun i : Nat => (i : Int))) := by
  rw [← generated_values rng count]
  exact (MakeTransactions_perm rng count).map firstOutValue

theorem MakeTransactions_values_nodup (rng : FastRandomContext) (count : Nat) :
    ((MakeTransactions rng count).map firstOutValue).Nodup :=
  (MakeTransactions_values_perm rng count).nodup_iff.mpr (range_cast_nodup count)

theorem MakeTransactions_nodup (rng : FastRandomContext) (count : Nat) :
    (MakeTransactions rng count).Nodup :=
  List.Nodup.of_map firstOutValue (MakeTransactions_values_nodup rng count)

theorem fillPool_entries (refs : List CTransaction) (pool : CTxMemPool) :
    (fillPool refs pool).entries = pool.entries ++ refs.map (fun tx =>
      { tx := tx, fee := firstOutValue tx, time := 0, entry_height := 1, entry_sequence := 0,
        spends_coinbase := false, sigops_cost := 4 }) := by
  induction refs generalizing pool with
  | nil => simp [fillPool]
  | cons tx refs ih =>
    have h := ih (AddTx tx (firstOutValue tx) pool)
    simp only [fillPool, List.foldl_cons] at h ⊢
    rw [h]
    simp [AddTx]

theorem fillPool_txs (refs : List CTransaction) :
    (fillPool refs {}).txs = refs := by
  simp only [CTxMemPool.txs, fillPool_entries, List.nil_append, List.map_map]
  exact List.map_id _

theorem fillPool_fees (refs : List CTransaction) :
    (fillPool refs {}).entries.map (fun e => e.fee) = refs.map firstOutValue := by
  simp [fillPool_entries, Function.comp]

theorem fillExtra_eq (H : Hashes) (refs : List CTransaction) (v : List (Nat × CTransaction)) :
    fillExtra H refs v = v ++ refs.map (fun tx => (H.GetWitnessHash tx, tx)) := by
  induction refs generalizing v with
  | nil => simp [fillExtra]
  | cons tx refs ih =>
    have h := ih (v ++ [(H.GetWitnessHash tx, tx)])
    simp only [fillExtra, List.foldl_cons] at h ⊢
    rw [h]
    simp

theorem pushShortIDs_eq (H : Hashes) (key : Nat × Nat) (txs : List CTransaction) (ids : List Nat) :
    pushShortIDs H key txs ids
      = ids ++ txs.map (fun tx => GetShortID H key (H.GetWitnessHash tx)) := by
  induction txs generalizing ids with
  | nil => simp [pushShortIDs]
  | cons tx txs ih =>
    have h := ih (ids ++ [GetShortID H key (H.GetWitnessHash tx)])
    simp only [pushShortIDs, List.foldl_cons] at h ⊢
    rw [h]
    simp

theorem pushRefs_eq (src : List CTransaction) (n i : Nat) (dst : List CTransaction)
    (h : i + n ≤ src.length) :
    pushRefs src n i dst = Except.ok (dst ++ (src.drop i).take n) := by
  induction n generalizing i dst with
  | zero => simp [pushRefs]
  | succ n ih =>
    have hi : i < src.length := by omega
    rw [pushRefs, List.getElem?_eq_getElem hi]
    simp only
    rw [ih (i + 1) _ (by omega)]
    congr 1
    rw [List.append_assoc]
    congr 1
    rw [List.drop_eq_getElem_cons hi, List.take_succ_cons]
    rfl

theorem assembleBlockRefs_eq (cfg : BenchConfig) (A B C : List CTransaction)
    (hA : cfg.n_pool_in_block ≤ A.length) (hB : cfg.n_extra_in_block ≤ B.length)
    (hC : cfg.n_random_in_block ≤ C.length) :
    assembleBlockRefs cfg A B C = Except.ok (A.take cfg.n_pool_in_block
      ++ B.take cfg.n_extra_in_block ++ C.take cfg.n_random_in_block) := by
  unfold assembleBlockRefs
  rw [pushRefs_eq A _ 0 [] (by omega)]
  simp only
  rw [pushRefs_eq B _ 0 _ (by omega)]
  simp only
  rw [pushRefs_eq C _ 0 _ (by omega)]
  simp

/-- Under the asserted precondition the set-up completes, with this state. -/
theorem setup_eq (H : Hashes) (R : BenchRngs) (cfg : BenchConfig)
    (h : cfg.n_pool ≥ cfg.n_pool_in_block ∧ cfg.n_extra ≥ cfg.n_extra_in_block) :
    setup H R cfg = Except.ok (finishSetup H R.bench (MakeTransactions R.pool cfg.n_pool)
      (MakeTransactions R.extra cfg.n_extra)
      ((MakeTransactions R.pool cfg.n_pool).take cfg.n_pool_in_block
        ++ (MakeTransactions R.extra cfg.n_extra).take cfg.n_extra_in_block
        ++ MakeTransactions R.random cfg.n_random_in_block)) := by
  unfold setup
  rw [if_pos h, assembleBlockRefs_eq cfg _ _ _ (by rw [MakeTransactions_length]; exact h.1)
    (by rw [MakeTransactions_length]; exact h.2) (by rw [MakeTransactions_length])]
  simp only
  rw [List.take_of_length_le (l := MakeTransactions R.random cfg.n_random_in_block)
    (by rw [MakeTransactions_length])]

theorem setup_ok_inv (H : Hashes) (R : BenchRngs) (cfg : BenchConfig) (s : BenchState)
    (hs : setup H R cfg = Except.ok s) :
    (cfg.n_pool ≥ cfg.n_pool_in_block ∧ cfg.n_extra ≥ cfg.n_extra_in_block) ∧
    s = finishSetup H R.bench (MakeTransactions R.pool cfg.n_pool)
      (MakeTransactions R.extra cfg.n_extra)
      ((MakeTransactions R.pool cfg.n_pool).take cfg.n_pool_in_block
        ++ (MakeTransactions R.extra cfg.n_extra).take cfg.n_extra_in_block
        ++ MakeTransactions R.random cfg.n_random_in_block) := by
  by_cases h : cfg.n_pool ≥ cfg.n_pool_in_block ∧ cfg.n_extra ≥ cfg.n_extra_in_block
  · rw [setup_eq H R cfg h] at hs
    exact ⟨h, (Except.ok.inj hs).symm⟩
  · unfold setup at hs
    rw [if_neg h] at hs
    cases hs

theorem finishSetup_pool_perm (H : Hashes) (rng : FastRandomContext)
    (A B refs : List CTransaction) : (finishSetup H rng A B refs).pool.txs.Perm A := by
  simp only [finishSetup, fillPool_txs]
  exact shuffle_perm A rng

theorem finishSetup_extra_perm (H : Hashes) (rng : FastRandomContext)
    (A B refs : List CTransaction) :
    ((finishSetup H rng A B refs).extratxn.map (fun e => e.2)).Perm B := by
  simp only [finishSetup, fillExtra_eq, List.nil_append, List.map_map]
  have h : (List.map ((fun e : Nat × CTransaction => e.2) ∘ fun tx => (H.GetWitnessHash tx, tx))
      (shuffle B (shuffle A rng).2).1) = (shuffle B (shuffle A rng).2).1 := List.map_id _
  rw [h]
  exact shuffle_perm B _

theorem announce_shorttxids (H : Hashes) (nonce : Nat) (txs : List CTransaction) :
    (announce H nonce txs).shorttxids
      = txs.map (fun tx => GetShortID H (announce H nonce txs).key (H.GetWitnessHash tx)) := by
  simp [announce, pushShortIDs_eq, CBlockHeaderAndShortTxIDs.ofBlock, DummyBlock,
    CBlockHeaderAndShortTxIDs.key]

theorem announce_prefilledtxn (H : Hashes) (nonce : Nat) (txs : List CTransaction) :
    (announce H nonce txs).prefilledtxn = [{ index := 0, tx := { vin := [{}], vout := [{}] } }] := by
  simp [announce, CBlockHeaderAndShortTxIDs.ofBlock, DummyBlock]

theorem announce_key (H : Hashes) (nonce : Nat) (txs : List CTransaction) :
    (announce H nonce txs).key = H.shortTxIDKeys (announce H nonce txs).header
      (announce H nonce txs).nonce := by
  simp [announce, CBlockHeaderAndShortTxIDs.ofBlock, CBlockHeaderAndShortTxIDs.key]

/-- C9: for every count and every outcome of the generator, `MakeTransactions(count)` returns
exactly `count` transactions, each with one input and two outputs of which the second has
value 0; their first-output values are a permutation of 0, ..., count-1; the transactions are
pairwise distinct, and so are the fees they enter the pool with after the benchmark's shuffle. -/
theorem MakeTransactions_spec (rng : FastRandomContext) (count : Nat) :
    (MakeTransactions rng count).length = count ∧
    (∀ tx ∈ MakeTransactions rng count, tx.vin.length = 1 ∧ tx.vout.length = 2 ∧
      (tx.vout[1]?).map (fun o => o.nValue) = some 0) ∧
    ((MakeTransactions rng count).map firstOutValue).Perm
      ((List.range count).map (fun i : Nat => (i : Int))) ∧
    (MakeTransactions rng count).Nodup ∧
    ((MakeTransactions rng count).map firstOutValue).Nodup ∧
    (∀ rng2 : FastRandomContext,
      ((fillPool (shuffle (MakeTransactions rng count) rng2).1 {}).entries.map
        (fun e => e.fee)).Nodup) := by
  refine ⟨MakeTransactions_length rng count, ?_, MakeTransactions_values_perm rng count,
    MakeTransactions_nodup rng count, MakeTransactions_values_nodup rng count, ?_⟩
  · intro tx htx
    obtain ⟨i, _, rfl⟩ := mem_MakeTransactions.mp htx
    exact ⟨rfl, rfl, rfl⟩
  · intro rng2
    rw [fillPool_fees]
    exact (((shuffle_perm (MakeTransactions rng count) rng2).map firstOutValue).nodup_iff).mpr
      (MakeTransactions_values_nodup rng count)

/-- C8: under the asserted precondition `n_pool >= n_pool_in_block` and
`n_extra >= n_extra_in_block`, every read `mempool_refs[i]` with `i < n_pool_in_block` and
`extra_refs[i]` with `i < n_extra_in_block` is in bounds, because `MakeTransactions(count)`
returns exactly `count` transactions; the set-up then ends without an out-of-range read. -/
theorem BlockEncodingBench_reads_in_bounds (H : Hashes) (R : BenchRngs) (cfg : BenchConfig)
    (h : cfg.n_pool ≥ cfg.n_pool_in_block ∧ cfg.n_extra ≥ cfg.n_extra_in_block) :
    (MakeTransactions R.pool cfg.n_pool).length = cfg.n_pool ∧
    (MakeTransactions R.extra cfg.n_extra).length = cfg.n_extra ∧
    (∀ i, i < cfg.n_pool_in_block → ∃ tx, (MakeTransactions R.pool cfg.n_pool)[i]? = some tx) ∧
    (∀ i, i < cfg.n_extra_in_block → ∃ tx, (MakeTransactions R.extra cfg.n_extra)[i]? = some tx) ∧
    (∃ refs, assembleBlockRefs cfg (MakeTransactions R.pool cfg.n_pool)
      (MakeTransactions R.extra cfg.n_extra)
      (MakeTransactions R.random cfg.n_random_in_block) = Except.ok refs) ∧
    (∃ s, setup H R cfg = Except.ok s) := by
  refine ⟨MakeTransactions_length _ _, MakeTransactions_length _ _, ?_, ?_, ?_, ?_⟩
  · intro i hi
    have hlt : i < (MakeTransactions R.pool cfg.n_pool).length := by
      rw [MakeTransactions_length]; omega
    exact ⟨_, List.getElem?_eq_getElem hlt⟩
  · intro i hi
    have hlt : i < (MakeTransactions R.extra cfg.n_extra).length := by
      rw [MakeTransactions_length]; omega
    exact ⟨_, List.getElem?_eq_getElem hlt⟩
  · exact ⟨_, assembleBlockRefs_eq cfg _ _ _ (by rw [MakeTransactions_length]; exact h.1)
      (by rw [MakeTransactions_length]; exact h.2) (by rw [MakeTransactions_length])⟩
  · exact ⟨_, setup_eq H R cfg h⟩

/-- Instance of C8 at the small configuration (3 pool, 2 extra, 1 random; 2 and 1 in block). -/
theorem BlockEncodingBench_reads_in_bounds_witness :
    (smallConfig.n_pool ≥ smallConfig.n_pool_in_block
      ∧ smallConfig.n_extra ≥ smallConfig.n_extra_in_block) ∧
    (∀ i, i < smallConfig.n_pool_in_block →
      ∃ tx, (MakeTransactions sampleRngs.pool smallConfig.n_pool)[i]? = some tx) ∧
    (∀ i, i < smallConfig.n_extra_in_block →
      ∃ tx, (MakeTransactions sampleRngs.extra smallConfig.n_extra)[i]? = some tx) ∧
    (∃ s, setup sampleHashes sampleRngs smallConfig = Except.ok s) :=
  ⟨by decide,
   (BlockEncodingBench_reads_in_bounds sampleHashes sampleRngs smallConfig (by decide)).2.2.1,
   (BlockEncodingBench_reads_in_bounds sampleHashes sampleRngs smallConfig (by decide)).2.2.2.1,
   (BlockEncodingBench_reads_in_bounds sampleHashes sampleRngs smallConfig (by decide)).2.2.2.2.2⟩

/-- C4: for every list `txs` and every nonce, the announcement built by `BenchCBHAST` has
exactly `txs.size()` short identifiers, in block order, the i-th being `GetShortID` of the
witness hash of `txs[i]`; the constructor uses the nonce `rng.rand64()`. -/
theorem BenchCBHAST_shorttxids (H : Hashes) (rng : FastRandomContext) (nonce : Nat)
    (txs : List CTransaction) :
    (announce H nonce txs).shorttxids.length = txs.length ∧
    (∀ i (hi : i < txs.length), (announce H nonce txs).shorttxids[i]?
      = some (GetShortID H (announce H nonce txs).key (H.GetWitnessHash (txs.get ⟨i, hi⟩)))) ∧
    (announce H nonce txs).shorttxids
      = txs.map (fun tx => GetShortID H (announce H nonce txs).key (H.GetWitnessHash tx)) ∧
    (BenchCBHAST H rng txs).1 = announce H (rng.rand64).1 txs := by
  refine ⟨?_, ?_, announce_shorttxids H nonce txs, rfl⟩
  · rw [announce_shorttxids, List.length_map]
  · intro i hi
    rw [announce_shorttxids, List.getElem?_map, List.getElem?_eq_getElem hi]
    rfl

/-- What the set-up phase leaves when it succeeds. -/
theorem setup_facts (H : Hashes) (R : BenchRngs) (cfg : BenchConfig) (s : BenchState)
    (hs : setup H R cfg = Except.ok s) :
    s.refs_for_block = (MakeTransactions R.pool cfg.n_pool).take cfg.n_pool_in_block
        ++ (MakeTransactions R.extra cfg.n_extra).take cfg.n_extra_in_block
        ++ MakeTransactions R.random cfg.n_random_in_block ∧
    s.pool.txs.Perm (MakeTransactions R.pool cfg.n_pool) ∧
    (s.extratxn.map (fun e => e.2)).Perm (MakeTransactions R.extra cfg.n_extra) ∧
    s.cmpctblock.shorttxids
      = s.refs_for_block.map (fun tx => GetShortID H s.cmpctblock.key (H.GetWitnessHash tx)) ∧
    s.cmpctblock.prefilledtxn = [{ index := 0, tx := { vin := [{}], vout := [{}] } }] ∧
    s.cmpctblock.key = H.shortTxIDKeys s.cmpctblock.header s.cmpctblock.nonce := by
  obtain ⟨_, rfl⟩ := setup_ok_inv H R cfg s hs
  refine ⟨rfl, finishSetup_pool_perm _ _ _ _ _, finishSetup_extra_perm _ _ _ _ _, ?_, ?_, ?_⟩
  · exact announce_shorttxids H _ _
  · exact announce_prefilledtxn H _ _
  · exact announce_key H _ _

theorem setup_pool_length (H : Hashes) (R : BenchRngs) (cfg : BenchConfig) (s : BenchState)
    (hs : setup H R cfg = Except.ok s) : s.pool.entries.length = cfg.n_pool := by
  have h := (setup_facts H R cfg s hs).2.1.length_eq
  rw [MakeTransactions_length] at h
  simpa [CTxMemPool.txs] using h

theorem setup_extratxn_length (H : Hashes) (R : BenchRngs) (cfg : BenchConfig) (s : BenchState)
    (hs : setup H R cfg = Except.ok s) : s.extratxn.length = cfg.n_extra := by
  have h := (setup_facts H R cfg s hs).2.2.1.length_eq
  rw [MakeTransactions_length] at h
  simpa using h

theorem setup_block_length (H : Hashes) (R : BenchRngs) (cfg : BenchConfig) (s : BenchState)
    (hs : setup H R cfg = Except.ok s) :
    s.refs_for_block.length
      = cfg.n_pool_in_block + cfg.n_extra_in_block + cfg.n_random_in_block ∧
    s.cmpctblock.shorttxids.length
      = cfg.n_pool_in_block + cfg.n_extra_in_block + cfg.n_random_in_block := by
  have hpre := (setup_ok_inv H R cfg s hs).1
  have hf := setup_facts H R cfg s hs
  have hlen : s.refs_for_block.length
      = cfg.n_pool_in_block + cfg.n_extra_in_block + cfg.n_random_in_block := by
    rw [hf.1]
    simp only [List.length_append, List.length_take, MakeTransactions_length]
    omega
  refine ⟨hlen, ?_⟩
  rw [hf.2.2.2.1, List.length_map, hlen]

theorem setup_block_known (H : Hashes) (R : BenchRngs) (cfg : BenchConfig) (s : BenchState)
    (hs : setup H R cfg = Except.ok s) :
    (∀ tx ∈ s.refs_for_block.take cfg.n_pool_in_block, tx ∈ s.pool.txs) ∧
    (∀ tx ∈ (s.refs_for_block.drop cfg.n_pool_in_block).take cfg.n_extra_in_block,
      tx ∈ s.extratxn.map (fun e => e.2)) := by
  have hpre := (setup_ok_inv H R cfg s hs).1
  have hf := setup_facts H R cfg s hs
  have hA : ((MakeTransactions R.pool cfg.n_pool).take cfg.n_pool_in_block).length
      = cfg.n_pool_in_block := by
    rw [List.length_take, MakeTransactions_length]; omega
  have hB : ((MakeTransactions R.extra cfg.n_extra).take cfg.n_extra_in_block).length
      = cfg.n_extra_in_block := by
    rw [List.length_take, MakeTransactions_length]; omega
  constructor
  · intro tx htx
    rw [hf.1, List.append_assoc, List.take_left' hA] at htx
    exact hf.2.1.mem_iff.mpr (List.mem_of_mem_take htx)
  · intro tx htx
    rw [hf.1, List.append_assoc, List.drop_left' hA, List.take_left' hB] at htx
    exact hf.2.2.1.mem_iff.mpr (List.mem_of_mem_take htx)

/-- C7: when `n_random_in_block = 0` the block is built from locally known transactions only.
Under the asserted precondition the set-up completes, and whenever it completes the
announcement carries the short identifiers of `refs_for_block`, whose first `n_pool_in_block`
transactions are in the (shuffled) pool and whose next `n_extra_in_block` transactions are in
the (shuffled) extra list, with no others: every block transaction is in the pool or in the
extra list. -/
theorem block_from_known_transactions (H : Hashes) (R : BenchRngs) (cfg : BenchConfig)
    (h0 : cfg.n_random_in_block = 0) :
    ((cfg.n_pool ≥ cfg.n_pool_in_block ∧ cfg.n_extra ≥ cfg.n_extra_in_block) →
      ∃ s, setup H R cfg = Except.ok s) ∧
    ∀ s, setup H R cfg = Except.ok s →
      s.cmpctblock.shorttxids
        = s.refs_for_block.map (fun tx => GetShortID H s.cmpctblock.key (H.GetWitnessHash tx)) ∧
      s.refs_for_block.length = cfg.n_pool_in_block + cfg.n_extra_in_block ∧
      (∀ tx ∈ s.refs_for_block.take cfg.n_pool_in_block, tx ∈ s.pool.txs) ∧
      (∀ tx ∈ (s.refs_for_block.drop cfg.n_pool_in_block).take cfg.n_extra_in_block,
        tx ∈ s.extratxn.map (fun e => e.2)) ∧
      (∀ tx ∈ s.refs_for_block, tx ∈ s.pool.txs ∨ tx ∈ s.extratxn.map (fun e => e.2)) := by
  refine ⟨fun h => ⟨_, setup_eq H R cfg h⟩, ?_⟩
  intro s hs
  have hf := setup_facts H R cfg s hs
  have hk := setup_block_known H R cfg s hs
  have hl : s.refs_for_block.length = cfg.n_pool_in_block + cfg.n_extra_in_block := by
    rw [(setup_block_length H R cfg s hs).1, h0, Nat.add_zero]
  refine ⟨hf.2.2.2.1, hl, hk.1, hk.2, ?_⟩
  intro tx htx
  rw [← List.take_append_drop cfg.n_pool_in_block s.refs_for_block, List.mem_append] at htx
  rcases htx with htx | htx
  · exact Or.inl (hk.1 tx htx)
  · refine Or.inr (hk.2 tx ?_)
    rw [List.take_of_length_le]
    · exact htx
    · rw [List.length_drop, hl]; omega

/-- Instance of C7 at a small configuration without random transactions (3 pool, 2 extra;
2 and 1 of them in the block). -/
theorem block_from_known_transactions_witness :
    smallKnownConfig.n_random_in_block = 0 ∧
    ∃ s, setup sampleHashes sampleRngs smallKnownConfig = Except.ok s ∧
      s.refs_for_block.length = 3 ∧
      (∀ tx ∈ s.refs_for_block, tx ∈ s.pool.txs ∨ tx ∈ s.extratxn.map (fun e => e.2)) := by
  refine ⟨rfl, ?_⟩
  obtain ⟨hex, hall⟩ :=
    block_from_known_transactions sampleHashes sampleRngs smallKnownConfig rfl
  obtain ⟨s, hs⟩ := hex (by decide)
  exact ⟨s, hs, (hall s hs).2.1, (hall s hs).2.2.2.2⟩

/-- C5 (amended): `DEFAULT_BLOCK_RECONSTRUCTION_EXTRA_TXN` is 100, and in every registered
benchmark other than `BlockEncodingLargeExtra` the extra list handed to `InitData` has at most
that many entries; `BlockEncodingLargeExtra` hands over 5000 entries. -/
theorem extratxn_length_registered (H : Hashes) (R : BenchRngs) :
    DEFAULT_BLOCK_RECONSTRUCTION_EXTRA_TXN = 100 ∧
    ∀ cfg ∈ registeredBenchmarks, ∃ s, setup H R cfg = Except.ok s ∧
      s.extratxn.length = cfg.n_extra ∧
      (cfg ≠ BlockEncodingLargeExtra →
        s.extratxn.length ≤ DEFAULT_BLOCK_RECONSTRUCTION_EXTRA_TXN) ∧
      (cfg = BlockEncodingLargeExtra → s.extratxn.length = 5000) := by
  refine ⟨rfl, ?_⟩
  intro cfg hmem
  have hpre : cfg.n_pool ≥ cfg.n_pool_in_block ∧ cfg.n_extra ≥ cfg.n_extra_in_block := by
    simp only [registeredBenchmarks, List.mem_cons, List.mem_singleton, List.not_mem_nil,
      or_false] at hmem
    rcases hmem with rfl | rfl | rfl | rfl | rfl <;> decide
  obtain ⟨s, hs⟩ : ∃ s, setup H R cfg = Except.ok s := ⟨_, setup_eq H R cfg hpre⟩
  have hl := setup_extratxn_length H R cfg s hs
  refine ⟨s, hs, hl, ?_, ?_⟩
  · intro hne
    rw [hl]
    simp only [registeredBenchmarks, List.mem_cons, List.mem_singleton, List.not_mem_nil,
      or_false] at hmem
    rcases hmem with rfl | rfl | rfl | rfl | rfl
    · decide
    · decide
    · decide
    · decide
    · exact absurd rfl hne
  · intro he
    rw [hl, he]
    rfl

/-- Counterexample to C5: `BlockEncodingLargeExtra` is registered and its extra list has
5000 entries, more than `DEFAULT_BLOCK_RECONSTRUCTION_EXTRA_TXN`. -/
theorem extratxn_exceeds_default_LargeExtra :
    BlockEncodingLargeExtra ∈ registeredBenchmarks ∧
    ∃ s, setup sampleHashes sampleRngs BlockEncodingLargeExtra = Except.ok s ∧
      s.extratxn.length = 5000 ∧
      ¬ s.extratxn.length ≤ DEFAULT_BLOCK_RECONSTRUCTION_EXTRA_TXN := by
  refine ⟨by decide, ?_⟩
  obtain ⟨s, hs⟩ : ∃ s, setup sampleHashes sampleRngs BlockEncodingLargeExtra = Except.ok s :=
    ⟨_, setup_eq sampleHashes sampleRngs BlockEncodingLargeExtra (by decide)⟩
  have hl := setup_extratxn_length sampleHashes sampleRngs BlockEncodingLargeExtra s hs
  refine ⟨s, hs, hl, ?_⟩
  rw [hl]
  decide

/-- C3 (amended): in the optimistic-reconstruction scenario the pool holds 50,000 pairwise
distinct transactions and the announcement has 7,010 short-identifier slots after the one
prefilled coinbase slot (7,011 slots in all): the first 7,000 from transactions of the pool,
the last 10 from transactions of the extra list. -/
theorem optimistic_scenario_sizes (H : Hashes) (R : BenchRngs) :
    ∃ s, setup H R BlockEncodingOptimisticReconstruction = Except.ok s ∧
      s.pool.entries.length = 50000 ∧ s.pool.txs.Nodup ∧
      s.cmpctblock.prefilledtxn.length = 1 ∧
      s.cmpctblock.shorttxids.length = 7010 ∧
      s.cmpctblock.shorttxids
        = s.refs_for_block.map (fun tx => GetShortID H s.cmpctblock.key (H.GetWitnessHash tx)) ∧
      (s.refs_for_block.take 7000).length = 7000 ∧
      (s.refs_for_block.drop 7000).length = 10 ∧
      (∀ tx ∈ s.refs_for_block.take 7000, tx ∈ s.pool.txs) ∧
      (∀ tx ∈ s.refs_for_block.drop 7000, tx ∈ s.extratxn.map (fun e => e.2)) := by
  obtain ⟨s, hs⟩ : ∃ s, setup H R BlockEncodingOptimisticReconstruction = Except.ok s :=
    ⟨_, setup_eq H R BlockEncodingOptimisticReconstruction (by decide)⟩
  have hf := setup_facts H R _ s hs
  have hk := setup_block_known H R _ s hs
  have hl := setup_block_length H R _ s hs
  have hr : s.refs_for_block.length = 7010 := hl.1
  refine ⟨s, hs, setup_pool_length H R _ s hs,
    hf.2.1.nodup_iff.mpr (MakeTransactions_nodup _ _), ?_, hl.2, hf.2.2.2.1, ?_, ?_, hk.1, ?_⟩
  · rw [hf.2.2.2.2.1]; rfl
  · rw [List.length_take, hr]; rfl
  · rw [List.length_drop, hr]
  · intro tx htx
    refine hk.2 tx ?_
    rw [List.take_of_length_le]
    · exact htx
    · have hd := List.length_drop 7000 s.refs_for_block
      rw [hr] at hd
      exact le_of_eq hd

/-- Counterexample to C3: the announcement of the optimistic-reconstruction scenario has
7,010 short-identifier slots and one prefilled slot, not 3,000 slots. -/
theorem optimistic_scenario_not_3000 :
    ∃ s, setup sampleHashes sampleRngs BlockEncodingOptimisticReconstruction = Except.ok s ∧
      s.cmpctblock.shorttxids.length = 7010 ∧
      s.cmpctblock.shorttxids.length ≠ 3000 ∧
      s.cmpctblock.prefilledtxn.length + s.cmpctblock.shorttxids.length ≠ 3000 := by
  obtain ⟨s, hs⟩ :
      ∃ s, setup sampleHashes sampleRngs BlockEncodingOptimisticReconstruction = Except.ok s :=
    ⟨_, setup_eq sampleHashes sampleRngs BlockEncodingOptimisticReconstruction (by decide)⟩
  have hf := setup_facts sampleHashes sampleRngs _ s hs
  have hl := (setup_block_length sampleHashes sampleRngs _ s hs).2
  refine ⟨s, hs, hl, ?_, ?_⟩
  · rw [hl]; decide
  · rw [hl, hf.2.2.2.2.1]; decide

/-! ## Lemmas on reconstruction -/

theorem payload_constRng (c i : Nat) : payload (constRng c) i = List.replicate 80 (c % 256) := by
  simp only [payload, constRng]
  rw [List.map_const', List.length_range]

theorem randomBenchmarks_shape (cfg : BenchConfig)
    (hcfg : cfg ∈ [BlockEncodingNoExtra, BlockEncodingStdExtra, BlockEncodingLargeExtra]) :
    cfg.n_pool_in_block = 0 ∧ cfg.n_extra_in_block = 0 ∧ cfg.n_random_in_block = 3000 ∧
    cfg.n_pool = 50000 ∧ cfg.n_extra ≤ 5000 := by
  simp only [List.mem_cons, List.mem_singleton, List.not_mem_nil, or_false] at hcfg
  rcases hcfg with rfl | rfl | rfl <;> decide

theorem random_only_block (H : Hashes) (R : BenchRngs) (cfg : BenchConfig) (s : BenchState)
    (hs : setup H R cfg = Except.ok s)
    (h1 : cfg.n_pool_in_block = 0) (h2 : cfg.n_extra_in_block = 0) :
    s.refs_for_block = MakeTransactions R.random cfg.n_random_in_block := by
  rw [(setup_facts H R cfg s hs).1, h1, h2]
  rfl

theorem random_only_disjoint (H : Hashes) (R : BenchRngs) (cfg : BenchConfig) (s : BenchState)
    (hs : setup H R cfg = Except.ok s)
    (h1 : cfg.n_pool_in_block = 0) (h2 : cfg.n_extra_in_block = 0)
    (hp : ∀ i, i < cfg.n_random_in_block → i < cfg.n_pool →
      payload R.random i ≠ payload R.pool i)
    (he : ∀ i, i < cfg.n_random_in_block → i < cfg.n_extra →
      payload R.random i ≠ payload R.extra i) :
    ∀ tx ∈ s.refs_for_block, tx ∉ s.pool.txs ∧ tx ∉ s.extratxn.map (fun e => e.2) := by
  have hf := setup_facts H R cfg s hs
  intro tx htx
  rw [random_only_block H R cfg s hs h1 h2] at htx
  obtain ⟨i, hi, rfl⟩ := mem_MakeTransactions.mp htx
  constructor
  · intro hmem
    obtain ⟨j, hj, hjeq⟩ := mem_MakeTransactions.mp (hf.2.1.mem_iff.mp hmem)
    obtain ⟨hij, hpay⟩ := makeTx_injective hjeq
    subst hij
    exact hp i hi hj hpay
  · intro hmem
    obtain ⟨j, hj, hjeq⟩ := mem_MakeTransactions.mp (hf.2.2.1.mem_iff.mp hmem)
    obtain ⟨hij, hpay⟩ := makeTx_injective hjeq
    subst hij
    exact he i hi hj hpay

/-- C6 (amended): in the three random-short-identifier benchmarks, for every outcome of the
generators in which the 80 bytes drawn for the random transaction of index `i` differ from
the 80 bytes drawn for the pool transaction and for the extra transaction of the same index,
no transaction whose short identifier is placed in the announcement is a transaction of the
pool or of the extra list. -/
theorem random_block_not_in_pools (H : Hashes) (R : BenchRngs) (cfg : BenchConfig)
    (hcfg : cfg ∈ [BlockEncodingNoExtra, BlockEncodingStdExtra, BlockEncodingLargeExtra])
    (hp : ∀ i, i < cfg.n_random_in_block → i < cfg.n_pool →
      payload R.random i ≠ payload R.pool i)
    (he : ∀ i, i < cfg.n_random_in_block → i < cfg.n_extra →
      payload R.random i ≠ payload R.extra i) :
    ∃ s, setup H R cfg = Except.ok s ∧
      s.refs_for_block.length = 3000 ∧
      s.cmpctblock.shorttxids
        = s.refs_for_block.map (fun tx => GetShortID H s.cmpctblock.key (H.GetWitnessHash tx)) ∧
      ∀ tx ∈ s.refs_for_block, tx ∉ s.pool.txs ∧ tx ∉ s.extratxn.map (fun e => e.2) := by
  obtain ⟨h1, h2, h3, h4, h5⟩ := randomBenchmarks_shape cfg hcfg
  obtain ⟨s, hs⟩ : ∃ s, setup H R cfg = Except.ok s :=
    ⟨_, setup_eq H R cfg ⟨by omega, by omega⟩⟩
  refine ⟨s, hs, ?_, (setup_facts H R cfg s hs).2.2.2.1,
    random_only_disjoint H R cfg s hs h1 h2 hp he⟩
  rw [(setup_block_length H R cfg s hs).1, h1, h2, h3]

/-- Instance of C6 (amended): `BlockEncodingStdExtra` with generator outcomes whose payload
bytes are 0 for the pool, 1 for the extra list and 2 for the random transactions. -/
theorem random_block_not_in_pools_witness :
    (∀ i, payload sampleRngs.random i ≠ payload sampleRngs.pool i) ∧
    (∀ i, payload sampleRngs.random i ≠ payload sampleRngs.extra i) ∧
    ∃ s, setup sampleHashes sampleRngs BlockEncodingStdExtra = Except.ok s ∧
      ∀ tx ∈ s.refs_for_block, tx ∉ s.pool.txs ∧ tx ∉ s.extratxn.map (fun e => e.2) := by
  have hp : ∀ i, payload sampleRngs.random i ≠ payload sampleRngs.pool i := by
    intro i
    show payload (constRng 2) i ≠ payload (constRng 0) i
    rw [payload_constRng, payload_constRng]
    decide
  have he : ∀ i, payload sampleRngs.random i ≠ payload sampleRngs.extra i := by
    intro i
    show payload (constRng 2) i ≠ payload (constRng 1) i
    rw [payload_constRng, payload_constRng]
    decide
  refine ⟨hp, he, ?_⟩
  obtain ⟨s, hs, _, _, hdis⟩ := random_block_not_in_pools sampleHashes sampleRngs
    BlockEncodingStdExtra (by decide) (fun i _ _ => hp i) (fun i _ _ => he i)
  exact ⟨s, hs, hdis⟩

/-- Counterexample to C6: when the generators of the three `MakeTransactions` calls produce
the same words, the random transaction with first output value 0 announced by
`BlockEncodingStdExtra` is also a transaction of the pool and of the extra list. -/
theorem random_block_may_repeat_pool :
    ∃ s, setup sampleHashes equalRngs BlockEncodingStdExtra = Except.ok s ∧
      ∃ tx ∈ s.refs_for_block, tx ∈ s.pool.txs ∧ tx ∈ s.extratxn.map (fun e => e.2) := by
  obtain ⟨s, hs⟩ : ∃ s, setup sampleHashes equalRngs BlockEncodingStdExtra = Except.ok s :=
    ⟨_, setup_eq sampleHashes equalRngs BlockEncodingStdExtra (by decide)⟩
  have hf := setup_facts sampleHashes equalRngs BlockEncodingStdExtra s hs
  refine ⟨s, hs, makeTx 0 (payload (constRng 0) 0), ?_, ?_, ?_⟩
  · rw [random_only_block sampleHashes equalRngs BlockEncodingStdExtra s hs rfl rfl]
    exact mem_MakeTransactions.mpr ⟨0, by decide, rfl⟩
  · exact hf.2.1.mem_iff.mpr (mem_MakeTransactions.mpr ⟨0, by decide, rfl⟩)
  · exact hf.2.2.1.mem_iff.mpr (mem_MakeTransactions.mpr ⟨0, by decide, rfl⟩)

end BlockEncodings
